import Mathlib

/-!
Shallow embedding of the `agent_ui` crate of otdoges/zed:
`agent_modes.rs` (the mode-to-capability policy), `visual_indicators.rs`
(token estimation and selection summaries) and `quick_edit.rs`
(selection extraction and context formatting).

Rust strings are modelled as `List Char`; Rust byte lengths (`str::len`)
as `utf8Len`; `u32` casts (`as u32`) as reduction modulo `2 ^ 32`;
`f32` arithmetic exactly over `ℚ`.
-/

namespace AgentUi

/-- Embeds `enum AgentMode` of `agent_modes.rs`. -/
inductive AgentMode : Type
  | Write
  | Ask
  | QuickEdit
  | Manual
deriving DecidableEq

/-- Embeds `AgentMode::enabled_tools` of `agent_modes.rs`. -/
def AgentMode.enabled_tools : AgentMode → List String
  | .Write => ["read_file", "write_file", "edit_file", "search_files", "run_command", "list_files"]
  | .Ask => ["read_file", "search_files", "list_files", "get_file_outline"]
  | .QuickEdit => ["read_file", "edit_file", "search_files"]
  | .Manual => ["read_file", "suggest_edit", "search_files"]

/-- Modelled from the spec: the direct-mutation capabilities (write/edit)
named by the mode-policy design rule; not a definition of the source. -/
def mutatingCapabilities : List String := ["write_file", "edit_file"]

/-- Modelled from the spec: the command-execution capabilities named by the
mode-policy design rule; not a definition of the source. -/
def executionCapabilities : List String := ["run_command"]

/-- Modelled from the spec: the read capabilities of a mode are its enabled
tools that are neither direct-mutation nor execution capabilities (the spec
describes QuickEdit as read plus scoped edit, with no execution). -/
def readCapabilities (m : AgentMode) : List String :=
  m.enabled_tools.filter fun t =>
    !(mutatingCapabilities.contains t) && !(executionCapabilities.contains t)

/-- Byte length of a string modelled as a character list (Rust `str::len`). -/
def utf8Len (text : List Char) : Nat :=
  (text.map Char.utf8Size).sum

/-- Embeds `struct TokenInfo` of `visual_indicators.rs` (`u32` fields as `Nat`). -/
structure TokenInfo : Type where
  selection_tokens : Nat
  total_tokens : Nat
  context_window : Nat

/-- Embeds `TokenInfo::percentage_used`; the `f32` arithmetic of the source
is modelled exactly over `ℚ`. -/
def TokenInfo.percentage_used (t : TokenInfo) : ℚ :=
  if t.context_window = 0 then 0
  else ((t.total_tokens : ℚ) / (t.context_window : ℚ)) * 100

/-- Embeds `TokenInfo::estimate_tokens_from_text`, which computes
`(text.len() / 4).max(1) as u32`; the truncating `as u32` cast is modelled
as `% 2 ^ 32`. -/
def TokenInfo.estimate_tokens_from_text (text : List Char) : Nat :=
  max (utf8Len text / 4) 1 % 2 ^ 32

/-- Splits a character list at every newline, keeping empty segments:
`n` newlines produce `n + 1` segments. -/
def splitOnNl : List Char → List (List Char)
  | [] => [[]]
  | c :: rest =>
    if c = '\n' then [] :: splitOnNl rest
    else
      match splitOnNl rest with
      | [] => [[c]]
      | seg :: segs => (c :: seg) :: segs

/-- Embeds Rust `str::lines` on the model: split at newlines, with no final
empty segment when the text ends in a newline. The trimming of a carriage
return at the end of a segment is omitted: it never changes the number of
segments, which is all `SelectionInfo::from_text` reads. -/
def rustLines (text : List Char) : List (List Char) :=
  if text = [] then []
  else if text.getLast? = some '\n' then (splitOnNl text).dropLast
  else splitOnNl text

/-- Embeds `struct SelectionInfo` of `visual_indicators.rs`
(`char_count` is `usize`, the other two fields `u32`). -/
structure SelectionInfo : Type where
  char_count : Nat
  line_count : Nat
  token_estimate : Nat

/-- Embeds `SelectionInfo::from_text`: `text.len()`,
`text.lines().count() as u32`, and the token estimate of the same text. -/
def SelectionInfo.from_text (text : List Char) : SelectionInfo :=
  { char_count := utf8Len text
    line_count := (rustLines text).length % 2 ^ 32
    token_estimate := TokenInfo.estimate_tokens_from_text text }

/-- Embeds the pure core of `QuickEditState::selected_text`: the bounds
check `start_offset >= buffer.len() || end_offset > buffer.len() ||
start_offset > end_offset` followed by the slice
`text_for_range(start..end)`. The editor-handle upgrade is an external
collaborator and is not part of the core; byte offsets are modelled as
character offsets, which leaves the bounds logic unchanged. -/
def selected_text (buffer : List Char) (selStart selEnd : Nat) : Option (List Char) :=
  if selStart ≥ buffer.length ∨ selEnd > buffer.length ∨ selStart > selEnd then none
  else some ((buffer.drop selStart).take (selEnd - selStart))

/-- Embeds `struct ContextInfo` of `quick_edit.rs` (paths as character
lists, `u32` rows and columns as `Nat`). -/
structure ContextInfo : Type where
  file_path : Option (List Char)
  start_line : Nat
  end_line : Nat
  start_column : Nat
  end_column : Nat

/-- Decimal digits of a natural number, as characters (the rendering used
by Rust `format!` for unsigned integers). -/
def natChars (n : Nat) : List Char :=
  Nat.toDigits 10 n

/-- Embeds `Vec::join` on the model: interleaves the separator between the
parts. -/
def joinSep (sep : List Char) : List (List Char) → List Char
  | [] => []
  | [part] => part
  | part :: parts => part ++ sep ++ joinSep sep parts

/-- The separator string passed to `join` by `ContextInfo::format`; the
source file literally contains the characters `â`, `€`, `¢` between two
spaces (a mojibake bullet), reproduced here byte for byte. -/
def bulletSep : List Char := " â€¢ ".toList

/-- Embeds `ContextInfo::format`: an optional `File:` part followed by a
`Line`/`Lines` part, joined with `bulletSep`. The `+ 1` on the `u32` line
fields is `u32` arithmetic and is modelled as wrapping modulo `2 ^ 32`,
the release-build behaviour; debug builds panic at the overflow instead,
and under neither behaviour does the source render the unbounded
successor. -/
def ContextInfo.format (ci : ContextInfo) : List Char :=
  joinSep bulletSep
    ((match ci.file_path with
      | some path => ["File: ".toList ++ path]
      | none => []) ++
     (if ci.start_line = ci.end_line then
        ["Line ".toList ++ natChars ((ci.start_line + 1) % 2 ^ 32)]
      else
        ["Lines ".toList ++ natChars ((ci.start_line + 1) % 2 ^ 32) ++ "-".toList ++
          natChars ((ci.end_line + 1) % 2 ^ 32)]))

/-- Embeds Rust `str::ends_with` on the model. -/
def endsWithL (s pat : List Char) : Bool :=
  s.drop (s.length - pat.length) == pat

/-- Embeds `ContextInfo::infer_language`: a pure suffix match of the file
path against the fixed extension table, empty for an unmatched extension or
an absent path. -/
def ContextInfo.infer_language (ci : ContextInfo) : List Char :=
  match ci.file_path with
  | some path =>
    if endsWithL path ".rs".toList then "rust".toList
    else if endsWithL path ".ts".toList || endsWithL path ".tsx".toList then "typescript".toList
    else if endsWithL path ".js".toList || endsWithL path ".jsx".toList then "javascript".toList
    else if endsWithL path ".py".toList then "python".toList
    else if endsWithL path ".go".toList then "go".toList
    else if endsWithL path ".c".toList || endsWithL path ".h".toList then "c".toList
    else if endsWithL path ".cpp".toList || endsWithL path ".cc".toList then "cpp".toList
    else if endsWithL path ".java".toList then "java".toList
    else if endsWithL path ".sql".toList then "sql".toList
    else []
  | none => []

/-- Embeds `ContextInfo::format_for_agent`: a fenced block holding the
formatted context, then a fenced code block tagged with the inferred
language. -/
def ContextInfo.format_for_agent (ci : ContextInfo) (code : List Char) : List Char :=
  ("```\n".toList ++ ci.format ++ "\n```\n\n".toList) ++
  ("```".toList ++ ci.infer_language ++ "\n".toList ++ code ++ "\n```".toList)

/-- A descriptor whose only relevant datum is its file path. -/
def pathCtx (p : String) : ContextInfo :=
  ⟨some p.toList, 0, 0, 0, 0⟩

/-- The character list `sub` occurs contiguously inside `s`. -/
def containsSub (sub s : List Char) : Prop :=
  ∃ pre post, s = pre ++ sub ++ post

/-- `splitOnNl` always yields at least one segment. -/
theorem splitOnNl_ne_nil (text : List Char) : splitOnNl text ≠ [] := by
  cases text with
  | nil => simp [splitOnNl]
  | cons c rest =>
    simp only [splitOnNl]
    split
    · simp
    · split <;> simp

/-- `splitOnNl` yields one segment more than the number of newlines. -/
theorem splitOnNl_length (text : List Char) :
    (splitOnNl text).length = text.count '\n' + 1 := by
  induction text with
  | nil => simp [splitOnNl]
  | cons c rest ih =>
    by_cases h : c = '\n'
    · simp [splitOnNl, h, List.count_cons, ih]
    · simp only [splitOnNl, if_neg h]
      cases heq : splitOnNl rest with
      | nil => exact absurd heq (splitOnNl_ne_nil rest)
      | cons seg segs =>
        have hlen : (splitOnNl rest).length = rest.count '\n' + 1 := ih
        rw [heq] at hlen
        simp [List.count_cons, h, ← hlen]

/-- The number of segments of `rustLines`, characterised without the
splitting function: zero for empty text, otherwise the newline count plus
one unless the text ends in a newline. -/
theorem rustLines_length (text : List Char) :
    (rustLines text).length =
      if text = [] then 0
      else text.count '\n' + (if text.getLast? = some '\n' then 0 else 1) := by
  unfold rustLines
  split_ifs with h1 h2
  · rfl
  · rw [List.length_dropLast, splitOnNl_length]
    omega
  · rw [splitOnNl_length]

/-- Byte length of a character repeated `n` times. -/
theorem utf8Len_replicate (n : Nat) (c : Char) :
    utf8Len (List.replicate n c) = n * c.utf8Size := by
  simp [utf8Len, List.sum_replicate, smul_eq_mul]

/-- The last element of a non-empty replicated list. -/
theorem getLast?_replicate_succ (n : Nat) (c : Char) :
    (List.replicate (n + 1) c).getLast? = some c := by
  induction n with
  | zero => rfl
  | succ k ih =>
    rw [List.replicate_succ, List.replicate_succ, List.getLast?_cons_cons,
      ← List.replicate_succ]
    exact ih

/-- Unfolding equation for the token estimate, for rewriting at large
arguments. -/
theorem estimate_tokens_def (text : List Char) :
    TokenInfo.estimate_tokens_from_text text = max (utf8Len text / 4) 1 % 2 ^ 32 :=
  rfl

/-- Unfolding equation for the line count of `from_text`, for rewriting at
large arguments. -/
theorem from_text_line_count (text : List Char) :
    (SelectionInfo.from_text text).line_count = (rustLines text).length % 2 ^ 32 :=
  rfl

/-- A contiguous occurrence is never longer than the list containing it. -/
theorem containsSub_length {sub s : List Char} (h : containsSub sub s) :
    sub.length ≤ s.length := by
  obtain ⟨pre, post, h2⟩ := h
  subst h2
  rw [List.length_append, List.length_append]
  omega

/-- C1 (counterexample): on the empty buffer the zero-length selection
`start = 0, end = 0` is rejected by `selected_text`, even though none of
the failure conditions claimed by the spec — `start > buffer_length`,
`end > buffer_length`, `start > end` — holds there. -/
theorem c1_zero_selection_rejected :
    selected_text [] 0 0 = none ∧
      ¬ (0 > ([] : List Char).length ∨ 0 > ([] : List Char).length ∨ (0 : Nat) > 0) := by
  decide

/-- C1 (amended): `selected_text` fails, returning no partial result,
exactly when `start ≥ buffer_length`, `end > buffer_length`, or
`start > end`; in particular the zero-length selection `start = 0, end = 0`
on an empty buffer is rejected, not accepted. -/
theorem c1_selected_text_none_iff (buffer : List Char) (s e : Nat) :
    selected_text buffer s e = none ↔
      s ≥ buffer.length ∨ e > buffer.length ∨ s > e := by
  unfold selected_text
  split_ifs with h
  · simp [h]
  · simp [h]

/-- C1 witness: the amended failure condition, evaluated on a concrete
buffer and range. -/
theorem c1_selected_text_none_iff_witness :
    selected_text "ab".toList 1 5 = none ↔
      1 ≥ "ab".toList.length ∨ 5 > "ab".toList.length ∨ 1 > 5 :=
  c1_selected_text_none_iff "ab".toList 1 5

/-- C2 (counterexample): `get_file_outline` is enabled in Ask but absent
from QuickEdit's tools (hence from any subset of them, such as its read
capabilities) and also absent from Write's tools, so Ask's capability set
is a subset of neither. -/
theorem c2_ask_not_below_quickedit :
    "get_file_outline" ∈ AgentMode.Ask.enabled_tools ∧
      "get_file_outline" ∉ AgentMode.QuickEdit.enabled_tools ∧
      "get_file_outline" ∉ AgentMode.Write.enabled_tools := by
  decide

/-- C2 (amended): the read capabilities of QuickEdit are a strict subset of
Ask's capability set and of Write's capability set; QuickEdit's full
capability set is a strict subset of Write's; and Manual's capability set
contains no direct-mutation capability. -/
theorem c2_capability_order :
    (∀ t ∈ readCapabilities .QuickEdit, t ∈ AgentMode.Ask.enabled_tools) ∧
      "get_file_outline" ∈ AgentMode.Ask.enabled_tools ∧
      "get_file_outline" ∉ readCapabilities .QuickEdit ∧
      (∀ t ∈ readCapabilities .QuickEdit, t ∈ AgentMode.Write.enabled_tools) ∧
      "write_file" ∈ AgentMode.Write.enabled_tools ∧
      "write_file" ∉ readCapabilities .QuickEdit ∧
      (∀ t ∈ AgentMode.QuickEdit.enabled_tools, t ∈ AgentMode.Write.enabled_tools) ∧
      "run_command" ∈ AgentMode.Write.enabled_tools ∧
      "run_command" ∉ AgentMode.QuickEdit.enabled_tools ∧
      (∀ t ∈ AgentMode.Manual.enabled_tools, t ∉ mutatingCapabilities) := by
  decide

/-- C2 witness: the subset parts of the amended ordering, applied to the
concrete capability `read_file`. -/
theorem c2_capability_order_witness :
    "read_file" ∈ AgentMode.Ask.enabled_tools ∧
      "read_file" ∈ AgentMode.Write.enabled_tools :=
  ⟨c2_capability_order.1 "read_file" (by decide),
    c2_capability_order.2.2.2.1 "read_file" (by decide)⟩

/-- C3: Ask enables no mutating capability (`write_file`, `edit_file`) and
no execution capability (`run_command`); Write enables both a mutating and
an execution capability; QuickEdit enables `edit_file` but no execution
capability. -/
theorem c3_mode_capabilities :
    "write_file" ∉ AgentMode.Ask.enabled_tools ∧
      "edit_file" ∉ AgentMode.Ask.enabled_tools ∧
      "run_command" ∉ AgentMode.Ask.enabled_tools ∧
      "write_file" ∈ AgentMode.Write.enabled_tools ∧
      "run_command" ∈ AgentMode.Write.enabled_tools ∧
      "edit_file" ∈ AgentMode.QuickEdit.enabled_tools ∧
      "run_command" ∉ AgentMode.QuickEdit.enabled_tools := by
  decide

/-- C4 (counterexample): a string of byte length `2 ^ 34` is estimated at
`0` tokens — the `as u32` cast truncates `max(1, 2 ^ 34 / 4) = 2 ^ 32` to
`0` — contradicting both the claimed formula `max(1, L / 4)` and the
claimed lower bound of `1`. -/
theorem c4_estimate_truncates :
    TokenInfo.estimate_tokens_from_text (List.replicate (2 ^ 34) 'a') = 0 ∧
      max 1 (utf8Len (List.replicate (2 ^ 34) 'a') / 4) = 2 ^ 32 := by
  have ha : ('a').utf8Size = 1 := by decide
  constructor
  · rw [estimate_tokens_def, utf8Len_replicate, ha, Nat.mul_one]
    norm_num
  · rw [utf8Len_replicate, ha, Nat.mul_one]
    norm_num

/-- C4 (amended): for every string of byte length `L < 2 ^ 34`,
`estimate_tokens_from_text` equals `max 1 (L / 4)` under integer floor
division, hence is at least `1`, with the empty string yielding `1`; for
longer strings the `u32` cast truncates the result modulo `2 ^ 32`. -/
theorem c4_estimate_tokens (text : List Char) (h : utf8Len text < 2 ^ 34) :
    TokenInfo.estimate_tokens_from_text text = max 1 (utf8Len text / 4) ∧
      1 ≤ TokenInfo.estimate_tokens_from_text text := by
  have hmax : max (utf8Len text / 4) 1 < 2 ^ 32 := by
    have hdiv : utf8Len text / 4 < 2 ^ 32 := by omega
    omega
  unfold TokenInfo.estimate_tokens_from_text
  rw [Nat.mod_eq_of_lt hmax]
  exact ⟨Nat.max_comm _ _, Nat.le_max_right _ _⟩

/-- C4 witness: the amended estimate evaluated on the empty string. -/
theorem c4_estimate_tokens_witness :
    TokenInfo.estimate_tokens_from_text [] = max 1 (utf8Len [] / 4) ∧
      1 ≤ TokenInfo.estimate_tokens_from_text [] :=
  c4_estimate_tokens [] (by decide)

/-- C5: `percentage_used` is exactly `0` whenever the context window is
`0`, regardless of the total tokens, and otherwise equals
`total_tokens / context_window * 100`. -/
theorem c5_percentage_used (t : TokenInfo) :
    (t.context_window = 0 → t.percentage_used = 0) ∧
      (t.context_window ≠ 0 →
        t.percentage_used = (t.total_tokens : ℚ) / (t.context_window : ℚ) * 100) := by
  unfold TokenInfo.percentage_used
  constructor <;> intro h <;> simp [h]

/-- C5 witness: a zero window yields `0` even with nonzero totals, and an
`8000`-of-`10000` usage yields `80`. -/
theorem c5_percentage_used_witness :
    TokenInfo.percentage_used ⟨0, 12345, 0⟩ = 0 ∧
      TokenInfo.percentage_used ⟨0, 8000, 10000⟩ = 80 := by
  refine ⟨(c5_percentage_used ⟨0, 12345, 0⟩).1 rfl, ?_⟩
  rw [(c5_percentage_used ⟨0, 8000, 10000⟩).2 (by decide)]
  norm_num

/-- C6 (counterexample): at `start_line = end_line = u32::MAX`, that is
`2 ^ 32 - 1`, the `u32` increment of `format` wraps: the label reads
`Line 0` and does not contain `Line 4294967296`, the unbounded successor
the claim requires (debug builds panic at this input instead of producing
any label). -/
theorem c6_wrap_at_u32_max :
    ContextInfo.format ⟨none, 2 ^ 32 - 1, 2 ^ 32 - 1, 0, 0⟩ = "Line 0".toList ∧
      ¬ containsSub "Line 4294967296".toList
        (ContextInfo.format ⟨none, 2 ^ 32 - 1, 2 ^ 32 - 1, 0, 0⟩) := by
  have hfmt : ContextInfo.format ⟨none, 2 ^ 32 - 1, 2 ^ 32 - 1, 0, 0⟩ = "Line 0".toList := by
    decide
  refine ⟨hfmt, fun hc => ?_⟩
  have hlen := containsSub_length hc
  rw [hfmt] at hlen
  revert hlen
  decide

/-- C6 (amended): for a descriptor whose line numbers can be incremented
without `u32` overflow, `format` renders one-based lines — a single-line
descriptor yields a label containing `Line (start+1)`, a multi-line one
`Lines (start+1)-(end+1)` — and a present file path is rendered as a
`File: path` part followed by the separator; concretely, lines 42 to 42
give a label containing `Line 43` and lines 5 to 10 give one containing
`Lines 6-11`. At `u32::MAX` the increment wraps instead of rendering the
unbounded successor. -/
theorem c6_format (ci : ContextInfo) (hs : ci.start_line + 1 < 2 ^ 32)
    (he : ci.end_line + 1 < 2 ^ 32) :
    (ci.start_line = ci.end_line →
        containsSub ("Line ".toList ++ natChars (ci.start_line + 1)) ci.format) ∧
      (ci.start_line ≠ ci.end_line →
        containsSub
          ("Lines ".toList ++ natChars (ci.start_line + 1) ++ "-".toList ++
            natChars (ci.end_line + 1)) ci.format) ∧
      (∀ p, ci.file_path = some p →
        ∃ rest, ci.format = "File: ".toList ++ p ++ bulletSep ++ rest) ∧
      containsSub "Line 43".toList
        (ContextInfo.format ⟨some "utils.rs".toList, 42, 42, 10, 30⟩) ∧
      containsSub "Lines 6-11".toList
        (ContextInfo.format ⟨some "src/main.rs".toList, 5, 10, 0, 20⟩) := by
  have hms : (ci.start_line + 1) % 4294967296 = ci.start_line + 1 :=
    Nat.mod_eq_of_lt (by simpa using hs)
  have hme : (ci.end_line + 1) % 4294967296 = ci.end_line + 1 :=
    Nat.mod_eq_of_lt (by simpa using he)
  refine ⟨fun h => ?_, fun h => ?_, fun p hp => ?_, ?_, ?_⟩
  · cases hp : ci.file_path with
    | none =>
      exact ⟨[], [], by simp [ContextInfo.format, hp, h, joinSep, hms, hme]⟩
    | some p =>
      exact ⟨"File: ".toList ++ p ++ bulletSep, [],
        by simp [ContextInfo.format, hp, h, joinSep, hms, hme]⟩
  · cases hp : ci.file_path with
    | none =>
      exact ⟨[], [], by simp [ContextInfo.format, hp, h, joinSep, hms, hme]⟩
    | some p =>
      exact ⟨"File: ".toList ++ p ++ bulletSep, [],
        by simp [ContextInfo.format, hp, h, joinSep, hms, hme]⟩
  · by_cases h : ci.start_line = ci.end_line
    · exact ⟨"Line ".toList ++ natChars ((ci.start_line + 1) % 2 ^ 32),
        by simp [ContextInfo.format, hp, h, joinSep]⟩
    · exact ⟨"Lines ".toList ++ natChars ((ci.start_line + 1) % 2 ^ 32) ++ "-".toList ++
          natChars ((ci.end_line + 1) % 2 ^ 32),
        by simp [ContextInfo.format, hp, h, joinSep]⟩
  · exact ⟨"File: utils.rs â€¢ ".toList, [], by decide⟩
  · exact ⟨"File: src/main.rs â€¢ ".toList, [], by decide⟩

/-- C6 witness: the single-line rendering applied to a concrete descriptor
for lines 42 to 42, with the no-overflow bounds discharged. -/
theorem c6_format_witness :
    containsSub ("Line ".toList ++ natChars (42 + 1))
      (ContextInfo.format ⟨none, 42, 42, 0, 0⟩) :=
  (c6_format ⟨none, 42, 42, 0, 0⟩ (by norm_num) (by norm_num)).1 rfl

/-- C7: language inference depends only on the file path; it follows the
fixed suffix table, with an empty result for an unmatched extension or an
absent path; and `format_for_agent` on any descriptor whose path is
`src/lib.rs` and whose line numbers can be incremented without `u32`
overflow contains the rust fence tag. -/
theorem c7_infer_language :
    (∀ a b : ContextInfo, a.file_path = b.file_path →
        a.infer_language = b.infer_language) ∧
      ((pathCtx "main.rs").infer_language = "rust".toList ∧
        (pathCtx "app.ts").infer_language = "typescript".toList ∧
        (pathCtx "app.tsx").infer_language = "typescript".toList ∧
        (pathCtx "app.js").infer_language = "javascript".toList ∧
        (pathCtx "app.jsx").infer_language = "javascript".toList ∧
        (pathCtx "utils.py").infer_language = "python".toList ∧
        (pathCtx "main.go").infer_language = "go".toList ∧
        (pathCtx "a.c").infer_language = "c".toList ∧
        (pathCtx "a.h").infer_language = "c".toList ∧
        (pathCtx "a.cpp").infer_language = "cpp".toList ∧
        (pathCtx "a.cc").infer_language = "cpp".toList ∧
        (pathCtx "Main.java").infer_language = "java".toList ∧
        (pathCtx "query.sql").infer_language = "sql".toList ∧
        (pathCtx "notes.txt").infer_language = [] ∧
        ContextInfo.infer_language ⟨none, 0, 0, 0, 0⟩ = []) ∧
      (∀ sl el sc ec code, sl + 1 < 2 ^ 32 → el + 1 < 2 ^ 32 →
        containsSub "```rust".toList
          (ContextInfo.format_for_agent ⟨some "src/lib.rs".toList, sl, el, sc, ec⟩
            code)) := by
  refine ⟨fun a b h => ?_, by decide, fun sl el sc ec code _hs _he => ?_⟩
  · cases a with
    | mk fp sl el sc ec =>
      cases b with
      | mk fp2 sl2 el2 sc2 ec2 =>
        have h2 : fp = fp2 := h
        subst h2
        rfl
  · refine ⟨"```\n".toList ++
        ContextInfo.format ⟨some "src/lib.rs".toList, sl, el, sc, ec⟩ ++
        "\n```\n\n".toList,
      "\n".toList ++ code ++ "\n```".toList, ?_⟩
    have hrust :
        ContextInfo.infer_language ⟨some "src/lib.rs".toList, sl, el, sc, ec⟩ =
          "rust".toList := rfl
    have hsplit : ("```rust".toList : List Char) = "```".toList ++ "rust".toList := by
      decide
    rw [hsplit]
    simp only [ContextInfo.format_for_agent]
    rw [hrust]
    simp [List.append_assoc]

/-- C7 witness: the rust fence tag produced for a concrete descriptor and
code body, with the no-overflow bounds discharged. -/
theorem c7_infer_language_witness :
    containsSub "```rust".toList
      (ContextInfo.format_for_agent ⟨some "src/lib.rs".toList, 0, 5, 0, 0⟩
        "fn hello()".toList) :=
  c7_infer_language.2.2 0 5 0 0 "fn hello()".toList (by norm_num) (by norm_num)

/-- C8 (counterexample): a text of `2 ^ 32` newlines has `2 ^ 32`
newline-delimited segments, but `from_text` reports `line_count = 0`
because of the `as u32` cast. -/
theorem c8_line_count_truncates :
    (SelectionInfo.from_text (List.replicate (2 ^ 32) '\n')).line_count = 0 ∧
      (rustLines (List.replicate (2 ^ 32) '\n')).length = 2 ^ 32 := by
  have hne : List.replicate (2 ^ 32) '\n' ≠ ([] : List Char) := by
    intro heq
    have h1 : (List.replicate (2 ^ 32) '\n').length = 0 := by
      rw [heq]
      rfl
    rw [List.length_replicate] at h1
    exact absurd h1 (by norm_num)
  have hlast : (List.replicate (2 ^ 32) '\n').getLast? = some '\n' := by
    have h32 : (2 ^ 32 : Nat) = 2 ^ 32 - 1 + 1 := by norm_num
    rw [h32]
    exact getLast?_replicate_succ _ _
  have hcount : (List.replicate (2 ^ 32) '\n').count '\n' = 2 ^ 32 := by
    rw [List.count_replicate]
    simp only [beq_self_eq_true, if_true]
  have hlen : (rustLines (List.replicate (2 ^ 32) '\n')).length = 2 ^ 32 := by
    rw [rustLines_length, if_neg hne, hcount, hlast, if_pos rfl, Nat.add_zero]
  refine ⟨?_, hlen⟩
  rw [from_text_line_count, hlen, Nat.mod_self]

/-- C8 (amended): for every text, `from_text` sets `char_count` to the raw
byte length and `token_estimate` to the token estimate of the same text;
and whenever the newline-delimited segment count is below `2 ^ 32` it sets
`line_count` to that count — zero for empty text, otherwise the newline
count plus one unless the text ends in a newline; the `as u32` cast
truncates larger counts. -/
theorem c8_from_text (text : List Char) :
    (SelectionInfo.from_text text).char_count = utf8Len text ∧
      (SelectionInfo.from_text text).token_estimate =
        TokenInfo.estimate_tokens_from_text text ∧
      ((rustLines text).length < 2 ^ 32 →
        (SelectionInfo.from_text text).line_count =
          if text = [] then 0
          else text.count '\n' + if text.getLast? = some '\n' then 0 else 1) := by
  refine ⟨rfl, rfl, fun h => ?_⟩
  rw [from_text_line_count, Nat.mod_eq_of_lt h, rustLines_length]

/-- C8 witness: the summary of a three-line text, with the segment-count
bound discharged concretely. -/
theorem c8_from_text_witness :
    (SelectionInfo.from_text "a\nb\nc".toList).line_count =
      if "a\nb\nc".toList = [] then 0
      else "a\nb\nc".toList.count '\n' +
        if "a\nb\nc".toList.getLast? = some '\n' then 0 else 1 :=
  (c8_from_text "a\nb\nc".toList).2.2 (by decide)

/-- C9: `from_text` on the empty string reports zero characters, zero
lines, and a token estimate of one. -/
theorem c9_from_text_empty :
    (SelectionInfo.from_text []).char_count = 0 ∧
      (SelectionInfo.from_text []).line_count = 0 ∧
      (SelectionInfo.from_text []).token_estimate = 1 := by
  decide

/-- C10: every mode enables a non-empty tool list that contains
`read_file`. -/
theorem c10_every_mode_reads (m : AgentMode) :
    m.enabled_tools ≠ [] ∧ "read_file" ∈ m.enabled_tools := by
  cases m <;> exact ⟨by decide, by decide⟩

/-- C10 witness: the invariant evaluated on the Manual mode. -/
theorem c10_every_mode_reads_witness :
    AgentMode.Manual.enabled_tools ≠ [] ∧
      "read_file" ∈ AgentMode.Manual.enabled_tools :=
  c10_every_mode_reads .Manual

end AgentUi
